import Mathlib

/-!
# Verification of the tic-tac-toe frontend core

Shallow embedding of the game state machine and reaction ledger from
`src/tic_tac_toe_frontend/src/App.js` and the chat-enabled variant of the
same component.  The React `useState` fields become fields of an explicit
state record; the `useEffect` that recomputes `winner` / `isDraw` / `status`
from `squares` is embedded as derived (pure) projections of the board, which
is exactly the synchronisation the effect maintains between commands in the
single-threaded event model.
-/

namespace TTT

/-- A player's mark: `'X'` or `'O'` in the source. -/
inductive Player where
  | X
  | O
deriving DecidableEq, Repr

/-- A board cell: `null` or a mark (`squares` holds `null | 'X' | 'O'`). -/
abbrev Cell := Option Player

/-- The `squares` array. JS array reads out of range give `undefined`,
which the code treats as falsy, so we embed reads with default `none`. -/
abbrev Board := List Cell

/-- `sq[i]`, with JS's out-of-range-read-is-falsy behaviour. -/
def cellAt (sq : Board) (i : Nat) : Cell := sq.getD i none

/-- The eight fixed lines, in the enumeration order of `calculateWinner`:
rows top-to-bottom, columns left-to-right, the two diagonals. -/
def lines : List (Nat × Nat × Nat) :=
  [(0, 1, 2), (3, 4, 5), (6, 7, 8),
   (0, 3, 6), (1, 4, 7), (2, 5, 8),
   (0, 4, 8), (2, 4, 6)]

/-- The loop-body condition `sq[a] && sq[a] === sq[b] && sq[a] === sq[c]`. -/
def lineWon (sq : Board) (l : Nat × Nat × Nat) : Bool :=
  (cellAt sq l.1).isSome
    && decide (cellAt sq l.1 = cellAt sq l.2.1)
    && decide (cellAt sq l.1 = cellAt sq l.2.2)

/-- The `for (let [a,b,c] of lines)` loop of `calculateWinner`: return
`sq[a]` at the first satisfied line, else fall through to `null`. -/
def calcWinnerAux (sq : Board) : List (Nat × Nat × Nat) → Option Player
  | [] => none
  | l :: rest => if lineWon sq l then cellAt sq l.1 else calcWinnerAux sq rest

/-- `calculateWinner(sq)` from the source. -/
def calculateWinner (sq : Board) : Option Player :=
  calcWinnerAux sq lines

/-- `line.includes(idx)` for a three-element line. -/
def memTriple (idx : Nat) (l : Nat × Nat × Nat) : Bool :=
  decide (idx = l.1) || decide (idx = l.2.1) || decide (idx = l.2.2)

/-- The loop of `isCellWinning`: return `true` at the first line that is won
and contains `idx`, else fall through to `false`. -/
def isCellWinningAux (idx : Nat) (sq : Board) : List (Nat × Nat × Nat) → Bool
  | [] => false
  | l :: rest =>
      if lineWon sq l && memTriple idx l then true else isCellWinningAux idx sq rest

/-- `isCellWinning(idx, sq)` from the source. -/
def isCellWinning (idx : Nat) (sq : Board) : Bool :=
  isCellWinningAux idx sq lines

/-- `squares.every((sq) => sq)` — every cell of the array is truthy. -/
def boardFull (sq : Board) : Bool := sq.all (fun c => c.isSome)

/-- The derived game outcome, as the status `useEffect` computes it:
a winner if `calculateWinner` finds one, else a draw if the board is full,
else in progress. -/
inductive Outcome where
  | InProgress
  | Win (m : Player)
  | Draw
deriving DecidableEq, Repr

/-- `getOutcome` — the outcome derived from the board by the `useEffect`. -/
def getOutcome (sq : Board) : Outcome :=
  match calculateWinner sq with
  | some m => Outcome.Win m
  | none => if boardFull sq then Outcome.Draw else Outcome.InProgress

/-- The recorded winning line of the spec: the first line, in the fixed
enumeration order, whose three cells are non-empty and identical.  The code
never stores a line (only the winning mark), so this definition follows the
spec's words; it is used to state the claims that mention the recorded line. -/
def firstWinningLine (sq : Board) : Option (Nat × Nat × Nat) :=
  lines.find? (fun l => lineWon sq l)

/-- Spec-side predicate for the outcome claims: some line of the eight fixed
triples has three identical non-empty cells. -/
def someLineWon (sq : Board) : Prop :=
  ∃ l ∈ lines, ∃ m : Player,
    cellAt sq l.1 = some m ∧ cellAt sq l.2.1 = some m ∧ cellAt sq l.2.2 = some m

/-- A chat message: `{text, reactions: {emoji: count}, matchReactions}`.
The reactions object is embedded as an insertion-ordered association list,
matching JS object key order; counts are integers. -/
structure Message where
  text : String
  reactions : List (String × Int)
  matchReactions : Int
deriving DecidableEq, Repr

instance : Inhabited Message := ⟨⟨"", [], 0⟩⟩

/-- The fixed reaction alphabet `EMOJIS` from the source. -/
def EMOJIS : List String := ["😀", "🎉", "👍", "😲", "❤️"]

/-- `m.reactions[emoji]` — `some` count if the key is present. -/
def lookupReaction (r : List (String × Int)) (e : String) : Option Int :=
  (r.find? (fun p => p.1 == e)).map (fun p => p.2)

/-- The count of a symbol on a message, an absent entry counting as 0. -/
def reactionCount (r : List (String × Int)) (e : String) : Int :=
  (lookupReaction r e).getD 0

/-- The JS expression `m.reactions && m.reactions[emoji] ? m.reactions[emoji] : 0`:
`reactions` is always an object (truthy), an absent or zero entry is falsy. -/
def reactionValue (r : List (String × Int)) (e : String) : Int :=
  match lookupReaction r e with
  | some n => if n ≠ 0 then n else 0
  | none => 0

/-- The object spread `{...r, [e]: v}`: if the key is present the entry is
updated in place (JS keeps its original position), else it is appended. -/
def setReaction (r : List (String × Int)) (e : String) (v : Int) :
    List (String × Int) :=
  if r.any (fun p => p.1 == e) then
    r.map (fun p => if p.1 == e then (e, v) else p)
  else
    r ++ [(e, v)]

/-- The whole component state: the four `useState` cells that carry data
(`squares`, `isXNext`, `messages`, `chatInput`).  `winner`, `isDraw` and
`status` are kept in sync with `squares` by the `useEffect` and are embedded
as the derived projections `calculateWinner` / `getOutcome`. -/
structure AppState where
  squares : Board
  isXNext : Bool
  messages : List Message
  chatInput : String
deriving DecidableEq, Repr

/-- The initial state: `Array(9).fill(null)`, X to move, no messages. -/
def initState : AppState :=
  { squares := List.replicate 9 none
    isXNext := true
    messages := []
    chatInput := "" }

/-- `handleClick(idx)`: rejected when `squares[idx] || winner` is truthy;
otherwise writes the current mark at `idx` and flips the turn.  `winner` is
the value the `useEffect` derived from the current board. -/
def handleClick (idx : Nat) (s : AppState) : AppState :=
  if (cellAt s.squares idx).isSome || (calculateWinner s.squares).isSome then s
  else
    { s with
        squares := s.squares.set idx (some (if s.isXNext then Player.X else Player.O))
        isXNext := !s.isXNext }

/-- `handleReset()`: fresh board, X to move.  (`status`/`winner`/`isDraw`
are derived here; the code resets them to the same derived values.)  The
chat state is not touched. -/
def handleReset (s : AppState) : AppState :=
  { s with squares := List.replicate 9 none, isXNext := true }

/-- JS whitespace for `String.prototype.trim` (the characters relevant to
the embedded strings: space, tab, LF, CR, VT, FF, NBSP). -/
def isJsWhitespace (c : Char) : Bool :=
  c == ' ' || c == '\t' || c == '\n' || c == '\r'
    || c == Char.ofNat 11 || c == Char.ofNat 12 || c == Char.ofNat 160

/-- `text.trim()` — drop whitespace from both ends. -/
def jsTrim (s : String) : String :=
  String.mk (((s.toList.dropWhile isJsWhitespace).reverse.dropWhile
    isJsWhitespace).reverse)

/-- `handleSendMessage` on the ledger: trim the input; if the trimmed text
is falsy (empty) do nothing, else append `{text: trimmed, reactions: {},
matchReactions: 0}`. -/
def handleSendMessage (input : String) (msgs : List Message) : List Message :=
  if jsTrim input = "" then msgs
  else msgs ++ [{ text := jsTrim input, reactions := [], matchReactions := 0 }]

/-- `handleReact(idx, emoji)`: map over the messages, replacing the one at
`i === idx` with a copy whose `reactions[emoji]` is the old (truthy) value
plus one. -/
def handleReact (idx : Nat) (emoji : String) (msgs : List Message) :
    List Message :=
  msgs.mapIdx (fun i m =>
    if i = idx then
      { m with reactions := setReaction m.reactions emoji (reactionValue m.reactions emoji + 1) }
    else m)

/-- `handleMatchReaction(idx)`: map over the messages, replacing the one at
`i === idx` with `matchReactions ? matchReactions + 1 : 1`. -/
def handleMatchReaction (idx : Nat) (msgs : List Message) : List Message :=
  msgs.mapIdx (fun i m =>
    if i = idx then
      { m with matchReactions := if m.matchReactions ≠ 0 then m.matchReactions + 1 else 1 }
    else m)

/-- A ledger command, for the command-sequence claims. -/
inductive LedgerCmd where
  | submit (text : String)
  | react (idx : Nat) (emoji : String)
  | highlight (idx : Nat)

/-- Apply one ledger command. -/
def applyLedgerCmd : LedgerCmd → List Message → List Message
  | LedgerCmd.submit t, l => handleSendMessage t l
  | LedgerCmd.react i e, l => handleReact i e l
  | LedgerCmd.highlight i, l => handleMatchReaction i l

/-- Ledger states reachable from the empty message log by command sequences. -/
inductive LedgerReach : List Message → Prop where
  | init : LedgerReach []
  | step (c : LedgerCmd) {l : List Message} :
      LedgerReach l → LedgerReach (applyLedgerCmd c l)

/-- Game states reachable from the initial state by clicks (on the board's
cell indices 0–8, the input domain of a move) and resets. -/
inductive Reach : AppState → Prop where
  | init : Reach initState
  | move (idx : Nat) (hidx : idx < 9) {s : AppState} :
      Reach s → Reach (handleClick idx s)
  | reset {s : AppState} : Reach s → Reach (handleReset s)

/-- Whether an outcome is a win. -/
def isWinOutcome : Outcome → Bool
  | Outcome.Win _ => true
  | _ => false

lemma lineWon_iff (sq : Board) (l : Nat × Nat × Nat) :
    lineWon sq l = true ↔
      ∃ m : Player, cellAt sq l.1 = some m ∧ cellAt sq l.2.1 = some m ∧
        cellAt sq l.2.2 = some m := by
  unfold lineWon
  constructor
  · intro h
    simp only [Bool.and_eq_true, decide_eq_true_eq, Option.isSome_iff_exists] at h
    obtain ⟨⟨⟨m, hm⟩, hb⟩, hc⟩ := h
    exact ⟨m, hm, by rw [← hb, hm], by rw [← hc, hm]⟩
  · rintro ⟨m, ha, hb, hc⟩
    simp [ha, hb, hc]

lemma calcWinnerAux_isSome_iff (sq : Board) (L : List (Nat × Nat × Nat)) :
    (calcWinnerAux sq L).isSome = true ↔ ∃ l ∈ L, lineWon sq l = true := by
  induction L with
  | nil => simp [calcWinnerAux]
  | cons l rest ih =>
    by_cases h : lineWon sq l = true
    · have hs : (cellAt sq l.1).isSome = true := by
        unfold lineWon at h
        simp only [Bool.and_eq_true] at h
        exact h.1.1
      simp [calcWinnerAux, h, hs]
    · simp only [calcWinnerAux, h, if_false, Bool.false_eq_true, ih,
        List.mem_cons]
      constructor
      · rintro ⟨x, hx, hw⟩; exact ⟨x, Or.inr hx, hw⟩
      · rintro ⟨x, hx, hw⟩
        rcases hx with rfl | hx
        · exact absurd hw h
        · exact ⟨x, hx, hw⟩

lemma calculateWinner_isSome_iff (sq : Board) :
    (calculateWinner sq).isSome = true ↔ ∃ l ∈ lines, lineWon sq l = true :=
  calcWinnerAux_isSome_iff sq lines

lemma someLineWon_iff (sq : Board) :
    someLineWon sq ↔ ∃ l ∈ lines, lineWon sq l = true := by
  unfold someLineWon
  constructor
  · rintro ⟨l, hl, m, h⟩
    exact ⟨l, hl, (lineWon_iff sq l).mpr ⟨m, h⟩⟩
  · rintro ⟨l, hl, hw⟩
    obtain ⟨m, h⟩ := (lineWon_iff sq l).mp hw
    exact ⟨l, hl, m, h⟩

lemma win_outcome_iff (sq : Board) :
    (∃ m, getOutcome sq = Outcome.Win m) ↔ (calculateWinner sq).isSome = true := by
  unfold getOutcome
  cases h : calculateWinner sq with
  | none =>
    simp only [Option.isSome_none, Bool.false_eq_true, iff_false]
    rintro ⟨m, hm⟩
    by_cases hf : boardFull sq = true <;> simp [hf] at hm
  | some m => simp

lemma boardFull_iff (sq : Board) (hlen : sq.length = 9) :
    boardFull sq = true ↔ ∀ i < 9, (cellAt sq i).isSome = true := by
  unfold boardFull
  rw [List.all_eq_true]
  constructor
  · intro h i hi
    have hi' : i < sq.length := by omega
    rw [cellAt, List.getD_eq_getElem sq none hi']
    exact h _ (sq.getElem_mem hi')
  · intro h c hc
    obtain ⟨i, hi, rfl⟩ := List.mem_iff_getElem.mp hc
    have := h i (by omega)
    rwa [cellAt, List.getD_eq_getElem sq none hi] at this

lemma isCellWinningAux_iff (idx : Nat) (sq : Board)
    (L : List (Nat × Nat × Nat)) :
    isCellWinningAux idx sq L = true ↔
      ∃ l ∈ L, lineWon sq l = true ∧ memTriple idx l = true := by
  induction L with
  | nil => simp [isCellWinningAux]
  | cons l rest ih =>
    by_cases h : (lineWon sq l && memTriple idx l) = true
    · simp only [Bool.and_eq_true] at h
      simp only [isCellWinningAux, h, Bool.and_self, if_true, true_iff]
      exact ⟨l, List.mem_cons_self l rest, h⟩
    · simp only [isCellWinningAux, h, if_false, Bool.false_eq_true, ih,
        List.mem_cons]
      rw [Bool.and_eq_true] at h
      constructor
      · rintro ⟨x, hx, hw⟩; exact ⟨x, Or.inr hx, hw⟩
      · rintro ⟨x, hx, hw⟩
        rcases hx with rfl | hx
        · exact absurd hw h
        · exact ⟨x, hx, hw⟩

lemma isWinOutcome_iff (sq : Board) :
    isWinOutcome (getOutcome sq) = true ↔ (calculateWinner sq).isSome = true := by
  unfold getOutcome
  cases h : calculateWinner sq with
  | none =>
    by_cases hf : boardFull sq = true <;> simp [hf, isWinOutcome]
  | some m => simp [isWinOutcome]

/-- The draw-scenario board of the spec: `X O X / X O O / O X X`. -/
def drawBoard : Board :=
  [some Player.X, some Player.O, some Player.X,
   some Player.X, some Player.O, some Player.O,
   some Player.O, some Player.X, some Player.X]

/-- **C1.** For every 9-cell board, the derived outcome is `Win` iff some
line of the eight fixed triples has three identical non-empty cells; it is
`Draw` iff all nine cells are occupied and no line is won; otherwise it is
`InProgress`. -/
theorem getOutcome_spec (sq : Board) (hlen : sq.length = 9) :
    ((∃ m, getOutcome sq = Outcome.Win m) ↔ someLineWon sq) ∧
    (getOutcome sq = Outcome.Draw ↔
      ((∀ i < 9, (cellAt sq i).isSome = true) ∧ ¬ someLineWon sq)) ∧
    (getOutcome sq = Outcome.InProgress ↔
      (¬ someLineWon sq ∧ ¬ (∀ i < 9, (cellAt sq i).isSome = true))) := by
  have hwin : (∃ m, getOutcome sq = Outcome.Win m) ↔ someLineWon sq := by
    rw [win_outcome_iff, calculateWinner_isSome_iff, someLineWon_iff]
  refine ⟨hwin, ?_, ?_⟩ <;>
  · cases h : calculateWinner sq with
    | none =>
      have hsw : ¬ someLineWon sq := by
        rw [someLineWon_iff, ← calculateWinner_isSome_iff, h]
        simp
      by_cases hf : boardFull sq = true
      · have hall := (boardFull_iff sq hlen).mp hf
        have hall' : ∀ x < 9, ¬ cellAt sq x = none := by
          intro x hx
          have hx2 := hall x hx
          rw [Option.isSome_iff_ne_none] at hx2
          exact hx2
        have hout : getOutcome sq = Outcome.Draw := by
          simp [getOutcome, h, hf]
        rw [hout]
        constructor
        · intro heq
          first
            | exact ⟨hall, hsw⟩
            | exact absurd heq (by decide)
        · intro hr
          first
            | rfl
            | exact absurd hall hr.2
      · have hn : ¬ ∀ i < 9, (cellAt sq i).isSome = true := by
          rw [← boardFull_iff sq hlen]; exact hf
        simp [getOutcome, h, hf, hsw, hn]
    | some m =>
      have hsw : someLineWon sq := by
        rw [someLineWon_iff, ← calculateWinner_isSome_iff, h]
        rfl
      simp [getOutcome, h, hsw]

/-- Witness for C1 at the spec's own draw scenario: the board
`X O X / X O O / O X X` is 9 cells and yields `Draw`. -/
theorem getOutcome_spec_witness :
    drawBoard.length = 9 ∧ getOutcome drawBoard = Outcome.Draw ∧
      ((∀ i < 9, (cellAt drawBoard i).isSome = true) ∧ ¬ someLineWon drawBoard) :=
  ⟨by decide, by decide,
    ((getOutcome_spec drawBoard (by decide)).2.1).mp (by decide)⟩

/-- Whether `idx` lies on the spec's recorded winning line (the first line,
in enumeration order, whose three cells are non-empty and identical). -/
def inRecordedWinningLine (sq : Board) (idx : Nat) : Bool :=
  match firstWinningLine sq with
  | some t => memTriple idx t
  | none => false

/-- A reachable board on which X's final move completes two lines at once:
X holds 0,1,2,3,6 (rows `[0,1,2]` and column `[0,3,6]` both won). -/
def doubleWinBoard : Board :=
  [some Player.X, some Player.X, some Player.X,
   some Player.X, some Player.O, some Player.O,
   some Player.X, some Player.O, some Player.O]

/-- **C2, counterexample.** On `doubleWinBoard` the recorded winning line
(first in enumeration order) is the top row `(0,1,2)`, which does not
contain index 3 — yet `isCellWinning 3` is `true`, because the code scans
*all* lines rather than only the first winning one.  So the claim's iff
fails at this concrete board and index. -/
theorem isCellWinning_first_line_cex :
    ¬ (isCellWinning 3 doubleWinBoard = true ↔
        (isWinOutcome (getOutcome doubleWinBoard) = true ∧
          inRecordedWinningLine doubleWinBoard 3 = true)) ∧
    firstWinningLine doubleWinBoard = some (0, 1, 2) := by decide

/-- **C2, amended.** `isCellWinning idx` returns `true` iff the outcome is
`Win` and `idx` is a member of *some* line (not necessarily the first one
in enumeration order) whose three cells are non-empty and identical. -/
theorem isCellWinning_iff (idx : Nat) (sq : Board) :
    isCellWinning idx sq = true ↔
      (isWinOutcome (getOutcome sq) = true ∧
        ∃ l ∈ lines, lineWon sq l = true ∧ memTriple idx l = true) := by
  rw [isCellWinning, isCellWinningAux_iff]
  constructor
  · rintro ⟨l, hl, hw, hm⟩
    refine ⟨?_, l, hl, hw, hm⟩
    rw [isWinOutcome_iff, calculateWinner_isSome_iff]
    exact ⟨l, hl, hw⟩
  · rintro ⟨-, l, hl, hw, hm⟩
    exact ⟨l, hl, hw, hm⟩

/-- **C4.** A click on an occupied cell, or a click issued when the derived
outcome is not `InProgress` (a winner exists or the board is drawn), leaves
the state completely unchanged; `handleClick` is a total function, so no
exception is signalled. -/
theorem handleClick_invalid_noop (s : AppState) (idx : Nat)
    (hlen : s.squares.length = 9) (hidx : idx < 9)
    (h : (cellAt s.squares idx).isSome = true ∨
      getOutcome s.squares ≠ Outcome.InProgress) :
    handleClick idx s = s := by
  unfold handleClick
  rcases h with h | h
  · simp [h]
  · cases hw : calculateWinner s.squares with
    | some m => simp [hw]
    | none =>
      have hf : boardFull s.squares = true := by
        by_contra hf
        exact h (by simp [getOutcome, hw, hf])
      have : (cellAt s.squares idx).isSome = true :=
        (boardFull_iff _ hlen).mp hf idx hidx
      simp [this]

/-- A concrete state with cell 0 occupied, O to move. -/
def occState : AppState :=
  { squares := [some Player.X, none, none, none, none, none, none, none, none]
    isXNext := false
    messages := []
    chatInput := "" }

/-- Witness for C4: clicking the occupied cell 0 of `occState` changes
nothing. -/
theorem handleClick_invalid_noop_witness :
    occState.squares.length = 9 ∧ (cellAt occState.squares 0).isSome = true ∧
      handleClick 0 occState = occState :=
  ⟨by decide, by decide,
    handleClick_invalid_noop occState 0 (by decide) (by decide)
      (Or.inl (by decide))⟩

/-- The spec's listed board for the scenario at moves [0,4,1,5,2]. -/
def specScenarioBoard : Board :=
  [some Player.X, some Player.O, some Player.X, some Player.O, some Player.X,
   none, none, none, none]

/-- The state after clicking 0, 4, 1, 5, 2 in order from the initial state. -/
def scenarioState : AppState :=
  handleClick 2 (handleClick 5 (handleClick 1 (handleClick 4
    (handleClick 0 initState))))

/-- **C6, counterexample.** The moves [0,4,1,5,2] do *not* produce the
spec's listed board `X,O,X,O,X,_,_,_,_`: cell 1 receives X's third move, so
the board is `X,X,X,_,O,O,_,_,_` (the spec listed the marks in move order,
not in board order). -/
theorem scenario_board_cex :
    scenarioState.squares ≠ specScenarioBoard ∧
    cellAt scenarioState.squares 1 = some Player.X ∧
    cellAt specScenarioBoard 1 = some Player.O := by decide

/-- **C6, amended.** Starting from the initial empty board, the moves at
indices 0, 4, 1, 5, 2 (X first, alternating) produce the board
`X,X,X,_,O,O,_,_,_` and, after the 5th move, the outcome is a win for X
with recorded winning line `[0,1,2]`. -/
theorem scenario_moves_spec :
    scenarioState.squares =
      [some Player.X, some Player.X, some Player.X, none,
       some Player.O, some Player.O, none, none, none] ∧
    getOutcome scenarioState.squares = Outcome.Win Player.X ∧
    firstWinningLine scenarioState.squares = some (0, 1, 2) := by decide

/-- **C9.** `handleReset` restores the game engine to its initial state —
empty board, X (P1) to move, derived outcome `InProgress` — and leaves
everything outside the engine untouched: the chat messages, with all their
texts and reaction and highlight counts, and the chat input are unchanged. -/
theorem handleReset_spec (s : AppState) :
    (handleReset s).squares = initState.squares ∧
    (handleReset s).isXNext = initState.isXNext ∧
    getOutcome (handleReset s).squares = Outcome.InProgress ∧
    (handleReset s).messages = s.messages ∧
    (handleReset s).chatInput = s.chatInput :=
  ⟨rfl, rfl,
    (by decide : getOutcome (List.replicate 9 none) = Outcome.InProgress),
    rfl, rfl⟩

/-- The number of cells holding a given mark. -/
def countMark (m : Player) (sq : Board) : Nat :=
  sq.countP (fun c => decide (c = some m))

/-- The number of occupied (non-empty) cells. -/
def occupiedCount (sq : Board) : Nat :=
  sq.countP (fun c => c.isSome)

lemma countP_set_of_none {p : Cell → Bool} (sq : Board) (i : Nat) (v : Cell)
    (hi : i < sq.length) (h : p (sq.getD i none) = false) :
    (sq.set i v).countP p = sq.countP p + (if p v then 1 else 0) := by
  induction sq generalizing i with
  | nil => simp at hi
  | cons c rest ih =>
    cases i with
    | zero =>
      simp only [List.getD_eq_getElem?_getD, List.getElem?_cons_zero,
        Option.getD_some] at h
      simp [List.countP_cons, h]
    | succ n =>
      simp only [List.getD_eq_getElem?_getD, List.getElem?_cons_succ] at h
      have hn : n < rest.length := by
        simp only [List.length_cons] at hi
        omega
      simp only [List.set_cons_succ, List.countP_cons,
        ih n hn (by simpa [List.getD_eq_getElem?_getD] using h)]
      omega

lemma occupiedCount_eq (sq : Board) :
    occupiedCount sq = countMark Player.X sq + countMark Player.O sq := by
  induction sq with
  | nil => rfl
  | cons c rest ih =>
    simp only [occupiedCount, countMark, List.countP_cons] at ih ⊢
    cases c with
    | none => simpa using ih
    | some m =>
      cases m <;> simp [ih] <;> omega

/-- The turn/count invariant maintained by the engine: a 9-cell board, and
X trails-or-equals O by exactly the turn flag: X has one extra mark exactly
when it is O's turn. -/
def GameInv (s : AppState) : Prop :=
  s.squares.length = 9 ∧
    countMark Player.X s.squares =
      countMark Player.O s.squares + (if s.isXNext then 0 else 1)

lemma gameInv_init : GameInv initState := by
  unfold GameInv
  decide

lemma gameInv_reset (s : AppState) : GameInv (handleReset s) := by
  constructor
  · show (List.replicate 9 (none : Cell)).length = 9
    decide
  · show countMark Player.X (List.replicate 9 (none : Cell)) =
      countMark Player.O (List.replicate 9 (none : Cell)) +
        (if (true : Bool) then 0 else 1)
    decide

lemma gameInv_move {s : AppState} (idx : Nat) (hidx : idx < 9)
    (ih : GameInv s) : GameInv (handleClick idx s) := by
  obtain ⟨hlen, hcnt⟩ := ih
  unfold handleClick
  by_cases hg : ((cellAt s.squares idx).isSome
      || (calculateWinner s.squares).isSome) = true
  · rw [if_pos hg]
    exact ⟨hlen, hcnt⟩
  · rw [if_neg hg]
    simp only [Bool.or_eq_true, not_or, Bool.not_eq_true] at hg
    have hnone : s.squares.getD idx none = none := by
      have h1 := hg.1
      rw [cellAt] at h1
      cases hopt : s.squares.getD idx none with
      | none => rfl
      | some m => rw [hopt] at h1; simp at h1
    have hi : idx < s.squares.length := by omega
    have hX0 : (fun c => decide (c = some Player.X))
        (s.squares.getD idx none) = false := by
      rw [hnone]; rfl
    have hO0 : (fun c => decide (c = some Player.O))
        (s.squares.getD idx none) = false := by
      rw [hnone]; rfl
    cases hx : s.isXNext with
    | true =>
      rw [hx] at hcnt
      simp only [if_true] at hcnt
      have hX1 : (s.squares.set idx (some Player.X)).countP
          (fun c => decide (c = some Player.X)) =
          s.squares.countP (fun c => decide (c = some Player.X)) + 1 := by
        rw [countP_set_of_none (p := fun c => decide (c = some Player.X))
          s.squares idx (some Player.X) hi hX0]
        simp
      have hO1 : (s.squares.set idx (some Player.X)).countP
          (fun c => decide (c = some Player.O)) =
          s.squares.countP (fun c => decide (c = some Player.O)) := by
        rw [countP_set_of_none (p := fun c => decide (c = some Player.O))
          s.squares idx (some Player.X) hi hO0]
        simp
      constructor
      · show (s.squares.set idx (some Player.X)).length = 9
        simpa using hlen
      · show (s.squares.set idx (some Player.X)).countP
            (fun c => decide (c = some Player.X)) =
          (s.squares.set idx (some Player.X)).countP
            (fun c => decide (c = some Player.O)) + 1
        unfold countMark at hcnt
        omega
    | false =>
      rw [hx] at hcnt
      simp only [Bool.false_eq_true, if_false] at hcnt
      have hX1 : (s.squares.set idx (some Player.O)).countP
          (fun c => decide (c = some Player.X)) =
          s.squares.countP (fun c => decide (c = some Player.X)) := by
        rw [countP_set_of_none (p := fun c => decide (c = some Player.X))
          s.squares idx (some Player.O) hi hX0]
        simp
      have hO1 : (s.squares.set idx (some Player.O)).countP
          (fun c => decide (c = some Player.O)) =
          s.squares.countP (fun c => decide (c = some Player.O)) + 1 := by
        rw [countP_set_of_none (p := fun c => decide (c = some Player.O))
          s.squares idx (some Player.O) hi hO0]
        simp
      constructor
      · show (s.squares.set idx (some Player.O)).length = 9
        simpa using hlen
      · show (s.squares.set idx (some Player.O)).countP
            (fun c => decide (c = some Player.X)) =
          (s.squares.set idx (some Player.O)).countP
            (fun c => decide (c = some Player.O)) + 0
        unfold countMark at hcnt
        omega

lemma reach_gameInv {s : AppState} (h : Reach s) : GameInv s := by
  induction h with
  | init => exact gameInv_init
  | move idx hidx _ ih => exact gameInv_move idx hidx ih
  | reset _ => exact gameInv_reset _

/-- **C5.** In every state reachable from the initial empty board by any
sequence of move and reset commands, the number of X marks exceeds the
number of O marks by 0 or 1: X (P1) moves first and accepted moves strictly
alternate between the two marks. -/
theorem markCount_invariant {s : AppState} (h : Reach s) :
    countMark Player.X s.squares = countMark Player.O s.squares ∨
    countMark Player.X s.squares = countMark Player.O s.squares + 1 := by
  obtain ⟨-, hcnt⟩ := reach_gameInv h
  cases hx : s.isXNext with
  | true =>
    rw [hx] at hcnt
    simp only [if_true] at hcnt
    exact Or.inl (by omega)
  | false =>
    rw [hx] at hcnt
    simp only [Bool.false_eq_true, if_false] at hcnt
    exact Or.inr hcnt

/-- Witness for C5 at the initial state (reachable by the empty command
sequence). -/
theorem markCount_invariant_witness :
    countMark Player.X initState.squares = countMark Player.O initState.squares ∨
    countMark Player.X initState.squares =
      countMark Player.O initState.squares + 1 :=
  markCount_invariant Reach.init

/-- **C10.** In every state reachable from the initial state by move and
reset commands, the stored turn flag agrees with the board's parity:
`isXNext` is true iff the number of occupied cells is even, so the turn
never desynchronizes from the board. -/
theorem turn_parity_invariant {s : AppState} (h : Reach s) :
    s.isXNext = true ↔ Even (occupiedCount s.squares) := by
  obtain ⟨-, hcnt⟩ := reach_gameInv h
  rw [occupiedCount_eq]
  cases hx : s.isXNext with
  | true =>
    rw [hx] at hcnt
    simp only [if_true] at hcnt
    simp only [true_iff]
    exact ⟨countMark Player.O s.squares, by omega⟩
  | false =>
    rw [hx] at hcnt
    simp only [Bool.false_eq_true, if_false] at hcnt
    simp only [Bool.false_eq_true, false_iff]
    rw [Nat.even_iff]
    omega

/-- Witness for C10 at the initial state. -/
theorem turn_parity_invariant_witness :
    initState.isXNext = true ↔ Even (occupiedCount initState.squares) :=
  turn_parity_invariant Reach.init

lemma lookup_map_update_self (r : List (String × Int)) (e : String) (v : Int)
    (h : r.any (fun p => p.1 == e) = true) :
    lookupReaction (r.map (fun p => if p.1 == e then (e, v) else p)) e =
      some v := by
  induction r with
  | nil => simp at h
  | cons p rest ih =>
    by_cases hk : (p.1 == e) = true
    · unfold lookupReaction
      simp only [List.map_cons, hk, if_true]
      rw [List.find?_cons_of_pos _ (by simp)]
      rfl
    · have h2 : rest.any (fun p => p.1 == e) = true := by
        simp only [List.any_cons, hk, Bool.false_or] at h
        exact h
      unfold lookupReaction
      simp only [List.map_cons, hk, if_false, Bool.false_eq_true]
      rw [List.find?_cons_of_neg _ (by simp [hk])]
      exact ih h2

lemma lookup_map_update_ne (r : List (String × Int)) (e s : String) (v : Int)
    (hse : s ≠ e) :
    lookupReaction (r.map (fun p => if p.1 == e then (e, v) else p)) s =
      lookupReaction r s := by
  induction r with
  | nil => rfl
  | cons p rest ih =>
    by_cases hk : (p.1 == e) = true
    · have hke : p.1 = e := by simpa using hk
      have hs1 : ¬ ((e, v).1 == s) = true := by
        simp
        exact fun hh => hse hh.symm
      have hs2 : ¬ (p.1 == s) = true := by
        simp [hke]
        exact fun hh => hse hh.symm
      unfold lookupReaction
      simp only [List.map_cons, hk, if_true]
      rw [List.find?_cons_of_neg (p := fun q : String × Int => q.1 == s) _ hs1,
        List.find?_cons_of_neg (p := fun q : String × Int => q.1 == s) _ hs2]
      exact ih
    · unfold lookupReaction
      simp only [List.map_cons, hk, if_false, Bool.false_eq_true]
      by_cases hs : (p.1 == s) = true
      · rw [List.find?_cons_of_pos (p := fun q : String × Int => q.1 == s) _ hs,
          List.find?_cons_of_pos (p := fun q : String × Int => q.1 == s) _ hs]
      · rw [List.find?_cons_of_neg (p := fun q : String × Int => q.1 == s) _ hs,
          List.find?_cons_of_neg (p := fun q : String × Int => q.1 == s) _ hs]
        exact ih

lemma lookupReaction_setReaction (r : List (String × Int)) (e s : String)
    (v : Int) :
    lookupReaction (setReaction r e v) s =
      if s = e then some v else lookupReaction r s := by
  unfold setReaction
  by_cases hany : r.any (fun p => p.1 == e) = true
  · rw [if_pos hany]
    by_cases hse : s = e
    · subst hse
      rw [if_pos rfl]
      exact lookup_map_update_self r s v hany
    · rw [if_neg hse]
      exact lookup_map_update_ne r e s v hse
  · rw [if_neg hany]
    have habs : ∀ p ∈ r, ¬ (p.1 == e) = true := by
      intro p hp hpe
      exact hany (List.any_eq_true.mpr ⟨p, hp, hpe⟩)
    unfold lookupReaction
    rw [List.find?_append]
    by_cases hse : s = e
    · subst hse
      have hnone : r.find? (fun p => p.1 == s) = none :=
        List.find?_eq_none.mpr habs
      rw [hnone, if_pos rfl]
      simp
    · rw [if_neg hse]
      have h1 : List.find? (fun p => p.1 == s) [(e, v)] = none := by
        rw [List.find?_eq_none]
        intro p hp
        simp only [List.mem_singleton] at hp
        subst hp
        simp
        exact fun hh => hse hh.symm
      rw [h1, Option.or_none]

lemma reactionCount_setReaction_self (r : List (String × Int)) (e : String)
    (v : Int) : reactionCount (setReaction r e v) e = v := by
  unfold reactionCount
  rw [lookupReaction_setReaction, if_pos rfl]
  rfl

lemma reactionCount_setReaction_ne (r : List (String × Int)) (e s : String)
    (v : Int) (h : s ≠ e) :
    reactionCount (setReaction r e v) s = reactionCount r s := by
  unfold reactionCount
  rw [lookupReaction_setReaction, if_neg h]

lemma reactionValue_eq_reactionCount (r : List (String × Int)) (e : String) :
    reactionValue r e = reactionCount r e := by
  unfold reactionValue reactionCount
  cases h : lookupReaction r e with
  | none => rfl
  | some n =>
    by_cases hn : n = 0
    · subst hn
      simp
    · simp [hn]

lemma getD_mapIdx_ite (g : Message → Message) (idx j : Nat) (l : List Message)
    (d : Message) (hj : j < l.length) :
    (l.mapIdx (fun i m => if i = idx then g m else m)).getD j d =
      if j = idx then g (l.getD j d) else l.getD j d := by
  have hgetD : l.getD j d = l.get ⟨j, hj⟩ := by
    rw [List.getD_eq_getElem?_getD, List.getElem?_eq_getElem hj]
    rfl
  have hopt : l[j]? = some (l.getD j d) := by
    rw [List.getElem?_eq_getElem hj, hgetD]
    rfl
  rw [List.getD_eq_getElem?_getD, List.getElem?_mapIdx, hopt]
  rfl

lemma getD_mapIdx_ite_ne (g : Message → Message) (idx j : Nat)
    (l : List Message) (d : Message) (hj : j ≠ idx) :
    (l.mapIdx (fun i m => if i = idx then g m else m)).getD j d =
      l.getD j d := by
  by_cases h : j < l.length
  · rw [getD_mapIdx_ite g idx j l d h, if_neg hj]
  · have h1 : l[j]? = none := List.getElem?_eq_none (by omega)
    have h2 : (l.mapIdx (fun i m => if i = idx then g m else m))[j]? = none := by
      rw [List.getElem?_mapIdx, h1]
      rfl
    rw [List.getD_eq_getElem?_getD, List.getD_eq_getElem?_getD, h1, h2]

lemma mapIdx_ite_out_of_range (g : Message → Message) (idx : Nat)
    (l : List Message) (h : l.length ≤ idx) :
    l.mapIdx (fun i m => if i = idx then g m else m) = l := by
  apply List.ext_getElem?
  intro j
  rw [List.getElem?_mapIdx]
  cases hopt : l[j]? with
  | none => rfl
  | some m =>
    have hj : j < l.length := by
      by_contra hc
      rw [List.getElem?_eq_none (by omega)] at hopt
      exact Option.noConfusion hopt
    have hji : j ≠ idx := by omega
    simp [hji]

lemma handleReact_getD (l : List Message) (i j : Nat) (e : String)
    (hj : j < l.length) :
    (handleReact i e l).getD j default =
      if j = i then
        { l.getD j default with
            reactions := setReaction (l.getD j default).reactions e
              (reactionValue (l.getD j default).reactions e + 1) }
      else l.getD j default := by
  unfold handleReact
  exact getD_mapIdx_ite _ i j l default hj

lemma handleMatchReaction_getD (l : List Message) (i j : Nat)
    (hj : j < l.length) :
    (handleMatchReaction i l).getD j default =
      if j = i then
        { l.getD j default with
            matchReactions :=
              if (l.getD j default).matchReactions ≠ 0 then
                (l.getD j default).matchReactions + 1
              else 1 }
      else l.getD j default := by
  unfold handleMatchReaction
  exact getD_mapIdx_ite _ i j l default hj

lemma length_handleReact (l : List Message) (i : Nat) (e : String) :
    (handleReact i e l).length = l.length := by
  unfold handleReact
  simp

lemma length_handleMatchReaction (l : List Message) (i : Nat) :
    (handleMatchReaction i l).length = l.length := by
  unfold handleMatchReaction
  simp

/-- **C7.** `handleSendMessage` trims the submitted text; if the trimmed
result is empty the message log is unchanged; otherwise exactly one message
carrying the trimmed text, an empty reaction mapping and a zero highlight
count is appended, and the new message sits at index `msgs.length` — its
position in the ordered log. -/
theorem handleSendMessage_spec (input : String) (msgs : List Message) :
    (jsTrim input = "" → handleSendMessage input msgs = msgs) ∧
    (jsTrim input ≠ "" →
      handleSendMessage input msgs =
        msgs ++ [{ text := jsTrim input, reactions := [], matchReactions := 0 }] ∧
      (handleSendMessage input msgs).getD msgs.length default =
        { text := jsTrim input, reactions := [], matchReactions := 0 } ∧
      (handleSendMessage input msgs).length = msgs.length + 1) := by
  constructor
  · intro h
    simp [handleSendMessage, h]
  · intro h
    have heq : handleSendMessage input msgs =
        msgs ++ [{ text := jsTrim input, reactions := [], matchReactions := 0 }] := by
      simp [handleSendMessage, h]
    refine ⟨heq, ?_, by rw [heq]; simp⟩
    rw [heq, List.getD_eq_getElem?_getD, List.getElem?_concat_length]
    rfl

/-- Witness for C7 at the spec's own scenario: `"  hi  "` is stored as
`"hi"`, and `"   "` is rejected leaving the log unchanged. -/
theorem handleSendMessage_spec_witness :
    jsTrim "  hi  " ≠ "" ∧
    handleSendMessage "  hi  " [] =
      [{ text := "hi", reactions := [], matchReactions := 0 }] ∧
    jsTrim "   " = "" ∧
    handleSendMessage "   " [] = [] := by
  refine ⟨by decide, ?_, by decide,
    (handleSendMessage_spec "   " []).1 (by decide)⟩
  have h := ((handleSendMessage_spec "  hi  " []).2 (by decide)).1
  rw [h]
  decide

/-- **C3, counterexample.** `handleReact` never checks the symbol against
the fixed alphabet `EMOJIS`: reacting with the out-of-alphabet symbol
`"X"` to an in-range message is *not* a no-op — it adds a count for `"X"` —
so the claim's no-op clause for out-of-alphabet symbols is false. -/
theorem handleReact_alphabet_cex :
    ("X" ∈ EMOJIS → False) ∧
    handleReact 0 "X" [{ text := "hi", reactions := [], matchReactions := 0 }] ≠
      [{ text := "hi", reactions := [], matchReactions := 0 }] ∧
    handleReact 0 "X" [{ text := "hi", reactions := [], matchReactions := 0 }] =
      [{ text := "hi", reactions := [("X", 1)], matchReactions := 0 }] := by
  decide

/-- **C3, amended.** `handleReact(messageIndex, symbol)` is a no-op iff
`messageIndex` is out of range.  For an in-range index it increments exactly
that symbol's count on exactly that message by exactly 1 (an absent entry
counts as 0) — for *any* symbol, in the fixed alphabet or not (the UI only
ever invokes it with alphabet symbols) — leaving every other symbol's count
on that message, the message's text and highlight count, and every other
message unchanged. -/
theorem handleReact_spec (msgs : List Message) (idx : Nat) (sym : String) :
    (msgs.length ≤ idx → handleReact idx sym msgs = msgs) ∧
    (idx < msgs.length →
      (handleReact idx sym msgs).length = msgs.length ∧
      reactionCount ((handleReact idx sym msgs).getD idx default).reactions sym =
        reactionCount (msgs.getD idx default).reactions sym + 1 ∧
      (∀ t, t ≠ sym →
        reactionCount ((handleReact idx sym msgs).getD idx default).reactions t =
          reactionCount (msgs.getD idx default).reactions t) ∧
      ((handleReact idx sym msgs).getD idx default).text =
        (msgs.getD idx default).text ∧
      ((handleReact idx sym msgs).getD idx default).matchReactions =
        (msgs.getD idx default).matchReactions ∧
      (∀ j, j ≠ idx →
        (handleReact idx sym msgs).getD j default = msgs.getD j default)) := by
  constructor
  · intro h
    exact mapIdx_ite_out_of_range _ idx msgs h
  · intro h
    have hD := handleReact_getD msgs idx idx sym h
    rw [if_pos rfl] at hD
    refine ⟨length_handleReact msgs idx sym, ?_, ?_, ?_, ?_, ?_⟩
    · rw [hD]
      show reactionCount (setReaction (msgs.getD idx default).reactions sym
        (reactionValue (msgs.getD idx default).reactions sym + 1)) sym =
          reactionCount (msgs.getD idx default).reactions sym + 1
      rw [reactionCount_setReaction_self, reactionValue_eq_reactionCount]
    · intro t ht
      rw [hD]
      show reactionCount (setReaction (msgs.getD idx default).reactions sym
        (reactionValue (msgs.getD idx default).reactions sym + 1)) t =
          reactionCount (msgs.getD idx default).reactions t
      exact reactionCount_setReaction_ne _ _ _ _ ht
    · rw [hD]
    · rw [hD]
    · intro j hj
      unfold handleReact
      exact getD_mapIdx_ite_ne _ idx j msgs default hj

/-- Witness for C3 (amended) at the spec's reaction scenario message. -/
theorem handleReact_spec_witness :
    (0 : Nat) < 1 ∧
    reactionCount ((handleReact 0 "👍"
        [{ text := "hi", reactions := [], matchReactions := 0 }]).getD 0
        default).reactions "👍" =
      reactionCount
        (([{ text := "hi", reactions := [], matchReactions := 0 }] :
          List Message).getD 0 default).reactions "👍" + 1 :=
  ⟨by decide,
    ((handleReact_spec [{ text := "hi", reactions := [], matchReactions := 0 }]
      0 "👍").2 (by decide)).2.1⟩

lemma submit_getD_lt (t : String) (l : List Message) (j : Nat)
    (hj : j < l.length) :
    (handleSendMessage t l).getD j default = l.getD j default := by
  unfold handleSendMessage
  by_cases ht : jsTrim t = ""
  · rw [if_pos ht]
  · rw [if_neg ht, List.getD_eq_getElem?_getD, List.getElem?_append_left hj,
      List.getD_eq_getElem?_getD]

/-- **C8.** Along every sequence of ledger commands (submit, react,
highlight), every reaction count and every highlight count of every message
is monotonically non-decreasing from one state to the next; and in every
state reachable from the empty log no count is ever negative. -/
theorem ledger_counts_monotone :
    (∀ (c : LedgerCmd) (l : List Message) (j : Nat), j < l.length →
      j < (applyLedgerCmd c l).length ∧
      (∀ t, reactionCount ((l.getD j default).reactions) t ≤
        reactionCount (((applyLedgerCmd c l).getD j default).reactions) t) ∧
      (l.getD j default).matchReactions ≤
        ((applyLedgerCmd c l).getD j default).matchReactions) ∧
    (∀ l, LedgerReach l → ∀ j, j < l.length →
      (∀ t, 0 ≤ reactionCount ((l.getD j default).reactions) t) ∧
      0 ≤ (l.getD j default).matchReactions) := by
  constructor
  · intro c l j hj
    cases c with
    | submit t =>
      refine ⟨?_, ?_, ?_⟩
      · show j < (handleSendMessage t l).length
        unfold handleSendMessage
        by_cases ht : jsTrim t = "" <;> simp [ht] <;> omega
      · intro t2
        rw [show applyLedgerCmd (LedgerCmd.submit t) l = handleSendMessage t l
            from rfl, submit_getD_lt t l j hj]
      · rw [show applyLedgerCmd (LedgerCmd.submit t) l = handleSendMessage t l
            from rfl, submit_getD_lt t l j hj]
    | react i e =>
      refine ⟨?_, ?_, ?_⟩
      · show j < (handleReact i e l).length
        rw [length_handleReact]
        exact hj
      · intro t2
        show reactionCount ((l.getD j default).reactions) t2 ≤
          reactionCount (((handleReact i e l).getD j default).reactions) t2
        rw [handleReact_getD l i j e hj]
        by_cases hji : j = i
        · rw [if_pos hji]
          show reactionCount ((l.getD j default).reactions) t2 ≤
            reactionCount (setReaction (l.getD j default).reactions e
              (reactionValue (l.getD j default).reactions e + 1)) t2
          by_cases hte : t2 = e
          · subst hte
            rw [reactionCount_setReaction_self,
              reactionValue_eq_reactionCount]
            omega
          · rw [reactionCount_setReaction_ne _ _ _ _ hte]
        · rw [if_neg hji]
      · show (l.getD j default).matchReactions ≤
          ((handleReact i e l).getD j default).matchReactions
        rw [handleReact_getD l i j e hj]
        by_cases hji : j = i
        · rw [if_pos hji]
        · rw [if_neg hji]
    | highlight i =>
      refine ⟨?_, ?_, ?_⟩
      · show j < (handleMatchReaction i l).length
        rw [length_handleMatchReaction]
        exact hj
      · intro t2
        show reactionCount ((l.getD j default).reactions) t2 ≤
          reactionCount (((handleMatchReaction i l).getD j default).reactions) t2
        rw [handleMatchReaction_getD l i j hj]
        by_cases hji : j = i
        · rw [if_pos hji]
        · rw [if_neg hji]
      · show (l.getD j default).matchReactions ≤
          ((handleMatchReaction i l).getD j default).matchReactions
        rw [handleMatchReaction_getD l i j hj]
        by_cases hji : j = i
        · rw [if_pos hji]
          show (l.getD j default).matchReactions ≤
            (if (l.getD j default).matchReactions ≠ 0 then
              (l.getD j default).matchReactions + 1
             else 1)
          by_cases h0 : (l.getD j default).matchReactions = 0
          · rw [h0]
            simp
          · rw [if_pos h0]
            omega
        · rw [if_neg hji]
  · intro l hreach
    induction hreach with
    | init =>
      intro j hj
      simp at hj
    | step c hprev ih =>
      intro j hj
      cases c with
      | submit t =>
        show (∀ t2, 0 ≤ reactionCount
            (((handleSendMessage t _).getD j default).reactions) t2) ∧
          0 ≤ ((handleSendMessage t _).getD j default).matchReactions
        rename_i l2
        by_cases hjl : j < l2.length
        · rw [submit_getD_lt t l2 j hjl]
          exact ih j hjl
        · have hj2 : j < (handleSendMessage t l2).length := hj
          unfold handleSendMessage at hj2 ⊢
          by_cases ht : jsTrim t = ""
          · rw [if_pos ht] at hj2
            omega
          · rw [if_neg ht] at hj2 ⊢
            have hlen : j = l2.length := by
              rw [List.length_append] at hj2
              simp at hj2
              omega
            subst hlen
            rw [List.getD_eq_getElem?_getD, List.getElem?_concat_length]
            constructor
            · intro t2
              show (0 : Int) ≤ reactionCount [] t2
              rw [reactionCount]
              rfl
            · show (0 : Int) ≤ 0
              omega
      | react i e =>
        rename_i l2
        have hjl : j < l2.length := by
          have := length_handleReact l2 i e
          show j < l2.length
          rw [show (applyLedgerCmd (LedgerCmd.react i e) l2).length =
            (handleReact i e l2).length from rfl] at hj
          omega
        obtain ⟨ihr, ihm⟩ := ih j hjl
        show (∀ t2, 0 ≤ reactionCount
            (((handleReact i e l2).getD j default).reactions) t2) ∧
          0 ≤ ((handleReact i e l2).getD j default).matchReactions
        rw [handleReact_getD l2 i j e hjl]
        by_cases hji : j = i
        · rw [if_pos hji]
          constructor
          · intro t2
            show (0 : Int) ≤ reactionCount
              (setReaction (l2.getD j default).reactions e
                (reactionValue (l2.getD j default).reactions e + 1)) t2
            by_cases hte : t2 = e
            · subst hte
              rw [reactionCount_setReaction_self,
                reactionValue_eq_reactionCount]
              have := ihr t2
              omega
            · rw [reactionCount_setReaction_ne _ _ _ _ hte]
              exact ihr t2
          · exact ihm
        · rw [if_neg hji]
          exact ⟨ihr, ihm⟩
      | highlight i =>
        rename_i l2
        have hjl : j < l2.length := by
          have := length_handleMatchReaction l2 i
          show j < l2.length
          rw [show (applyLedgerCmd (LedgerCmd.highlight i) l2).length =
            (handleMatchReaction i l2).length from rfl] at hj
          omega
        obtain ⟨ihr, ihm⟩ := ih j hjl
        show (∀ t2, 0 ≤ reactionCount
            (((handleMatchReaction i l2).getD j default).reactions) t2) ∧
          0 ≤ ((handleMatchReaction i l2).getD j default).matchReactions
        rw [handleMatchReaction_getD l2 i j hjl]
        by_cases hji : j = i
        · rw [if_pos hji]
          refine ⟨ihr, ?_⟩
          show (0 : Int) ≤
            (if (l2.getD j default).matchReactions ≠ 0 then
              (l2.getD j default).matchReactions + 1
             else 1)
          by_cases h0 : (l2.getD j default).matchReactions = 0
          · rw [h0]
            simp
          · rw [if_pos h0]
            omega
        · rw [if_neg hji]
          exact ⟨ihr, ihm⟩

/-- Witness for C8: a one-message log reachable by a single submit, on
which both the monotone-step part and the non-negativity part apply. -/
theorem ledger_counts_monotone_witness :
    ((0 : Nat) < 1 ∧
      (∀ t, reactionCount
          ((([{ text := "hi", reactions := [], matchReactions := 0 }] :
            List Message).getD 0 default).reactions) t ≤
        reactionCount (((applyLedgerCmd (LedgerCmd.react 0 "👍")
          [{ text := "hi", reactions := [], matchReactions := 0 }]).getD 0
            default).reactions) t)) ∧
    (∀ t, 0 ≤ reactionCount
      ((([{ text := "hi", reactions := [], matchReactions := 0 }] :
        List Message).getD 0 default).reactions) t) := by
  have hreach : LedgerReach
      [{ text := "hi", reactions := [], matchReactions := 0 }] := by
    have h : applyLedgerCmd (LedgerCmd.submit "hi") [] =
        [{ text := "hi", reactions := [], matchReactions := 0 }] := by decide
    rw [← h]
    exact LedgerReach.step (LedgerCmd.submit "hi") LedgerReach.init
  exact ⟨⟨by decide, (ledger_counts_monotone.1 (LedgerCmd.react 0 "👍")
      [{ text := "hi", reactions := [], matchReactions := 0 }] 0
      (by decide)).2.1⟩,
    (ledger_counts_monotone.2
      [{ text := "hi", reactions := [], matchReactions := 0 }] hreach 0
      (by decide)).1⟩

end TTT
